import Mathlib

set_option maxHeartbeats 1000000

/-! Shallow embedding of `testbed/data/sampler/__init__.py`: the two classes
`ConcatSampler` and `MultiBatchSampler` over the external sampler
abstraction, together with proofs about their construction, iteration and
length behaviour. -/

/-- A value produced by a wrapped sampler on one draw: a single integer index
or a list of integer indices (a batch). -/
inductive Item where
  | scalar (n : Int)
  | batch (xs : List Int)
deriving DecidableEq

/-- The external sampler object consumed by both classes: a finite restartable
sequence of items, an optional length capability (whether `__len__` exists),
and a `batch_size` attribute (read only by `MultiBatchSampler`). -/
structure PySampler where
  seq : List Item
  hasLen : Bool := true
  batch_size : Nat := 0
deriving DecidableEq

/-- The length query `len(sampler)`: `none` models the `TypeError` raised when
the wrapped sampler has no `__len__`. -/
def PySampler.len? (s : PySampler) : Option Nat :=
  if s.hasLen then some s.seq.length else none

/-- Exceptions that can escape the two constructors. -/
inductive InitError where
  | valueError
  | stopIteration
deriving DecidableEq

/-- Contribution of one peeked item to `ConcatSampler.batch_size`:
`len(idx) if isinstance(idx, list) else 1`. -/
def itemSize : Item → Nat
  | .batch xs => xs.length
  | .scalar _ => 1

/-- The comprehension `[next(iter(sampler)) for sampler in self.samplers]`:
fails (propagating `StopIteration`) at the first empty sampler. -/
def peekAll : List PySampler → Option (List Item)
  | [] => some []
  | s :: ss =>
    match s.seq.head? with
    | none => none
    | some x =>
      match peekAll ss with
      | none => none
      | some xs => some (x :: xs)

/-- The state built by `ConcatSampler.__init__`. -/
structure ConcatSampler where
  samplers : List PySampler
  batch_size : Nat
  cumulative_indices : List Int
deriving DecidableEq

/-- `ConcatSampler.__init__`: peeks one item from every wrapped sampler
(raising `StopIteration` when one is empty), sums the per-sampler
contributions into `batch_size`, and computes `cumulative_indices` as
`[0] + cumulative_dataset_sizes[:-1]` when sizes are given, else one zero per
sampler. -/
def ConcatSampler.mk? (samplers : List PySampler)
    (cumulative_dataset_sizes : Option (List Int)) :
    Except InitError ConcatSampler :=
  match peekAll samplers with
  | none => .error .stopIteration
  | some sample_indices =>
    .ok { samplers := samplers
          batch_size := (sample_indices.map itemSize).sum
          cumulative_indices :=
            match cumulative_dataset_sizes with
            | some sizes => 0 :: sizes.dropLast
            | none => List.replicate samplers.length 0 }

/-- The generator expression
`(idx + self.cumulative_indices[i] for idx in mini)` driven by
`batch.extend`: the offset lookup happens once per element, so an empty list
item never touches `cumulative_indices`; an out-of-range lookup is the
`IndexError` (`none`). -/
def extendList (off? : Option Int) : List Int → Option (List Int)
  | [] => some []
  | idx :: rest =>
    match off? with
    | none => none
    | some off =>
      match extendList off? rest with
      | none => none
      | some out => some ((idx + off) :: out)

/-- Body of the `for i, mini in enumerate(sample_indices)` loop for one drawn
item: extend with the offset elements for a list, append the single offset
value for a scalar. -/
def extendItem (offsets : List Int) (i : Nat) : Item → Option (List Int)
  | .batch xs => extendList offsets[i]? xs
  | .scalar n => (offsets[i]?).map (fun off => [n + off])

/-- The whole loop of one `ConcatSampler.__iter__` step building `batch`,
with `i` the running `enumerate` position. -/
def concatBatchGo (offsets : List Int) : Nat → List Item → Option (List Int)
  | _, [] => some []
  | i, item :: rest =>
    match extendItem offsets i item with
    | none => none
    | some part =>
      match concatBatchGo offsets (i + 1) rest with
      | none => none
      | some out => some (part ++ out)

def concatBatch (offsets : List Int) (items : List Item) : Option (List Int) :=
  concatBatchGo offsets 0 items

/-- The comprehension `[next(it) for it in sampler_iters]`: fails
(`StopIteration`) at the first exhausted iterator. -/
def nextAll : List (List Item) → Option (List Item)
  | [] => some []
  | l :: ls =>
    match l.head? with
    | none => none
    | some x =>
      match nextAll ls with
      | none => none
      | some xs => some (x :: xs)

/-- `ConcatSampler.__iter__` truncated to `fuel` loop iterations: each step
draws one item from every remaining sequence, `StopIteration` (some sequence
exhausted) ends the output, and an `IndexError` from `cumulative_indices`
kills the generator. Any `fuel` larger than the shortest sequence length
returns the complete yielded output; the bound exists because with zero
samplers the Python loop yields the empty batch forever. -/
def concatIterFuel (offsets : List Int) : Nat → List (List Item) → List (List Int)
  | 0, _ => []
  | fuel + 1, its =>
    match nextAll its with
    | none => []
    | some items =>
      match concatBatch offsets items with
      | none => []
      | some b => b :: concatIterFuel offsets fuel (its.map List.tail)

/-- The generator `(len(sampler) for sampler in self.samplers)` consumed by
`min`: `none` models the `TypeError` from a sampler without `__len__`. -/
def lensAll : List PySampler → Option (List Nat)
  | [] => some []
  | s :: ss =>
    match s.len? with
    | none => none
    | some n =>
      match lensAll ss with
      | none => none
      | some ns => some (n :: ns)

/-- `ConcatSampler.__len__`, that is `min(len(sampler) for ...)`: `none`
models both the `TypeError` of a missing `__len__` and the `ValueError` that
`min` raises on an empty sequence of samplers. -/
def concatLen? (samplers : List PySampler) : Option Nat :=
  match lensAll samplers with
  | none => none
  | some [] => none
  | some (n :: ns) => some (ns.foldl min n)

/-- A Python value passed as a constructor argument, as far as the
`isinstance` checks distinguish it: an `int` that is not a `bool`, a `bool`
(which `isinstance(x, int)` also accepts), or some other value such as the
float `2.5`, whose exact value the checks never read. -/
inductive PyVal where
  | int (n : Int)
  | bool (b : Bool)
  | float
deriving DecidableEq

/-- Passing direction of the guard
`not isinstance(m, int) or isinstance(m, bool) or m <= 0`. -/
def isPosIntVal : PyVal → Bool
  | .int n => decide (0 < n)
  | _ => false

/-- The check `isinstance(drop_last, bool)`. -/
def isBoolVal : PyVal → Bool
  | .bool _ => true
  | _ => false

/-- Numeric content of a validated merge-size argument. -/
def PyVal.toIntVal : PyVal → Int
  | .int n => n
  | .bool b => if b then 1 else 0
  | .float => 0

/-- Boolean content of a validated drop-last argument. -/
def PyVal.toBoolVal : PyVal → Bool
  | .bool b => b
  | _ => false

/-- The state built by `MultiBatchSampler.__init__`. -/
structure MultiBatchSampler where
  sampler : PySampler
  batch_size : Nat
  merge_size : Nat
  drop_last : Bool
deriving DecidableEq

/-- `MultiBatchSampler.__init__`: validates the merge size and the drop-last
flag (`ValueError`), then inspects `next(iter(sampler))` (propagating
`StopIteration` when the sampler is empty and raising `ValueError` when the
first item is an `int`), and stores
`batch_size = multi_merge_size * sampler.batch_size`. -/
def MultiBatchSampler.mk? (sampler : PySampler) (multi_merge_size : PyVal)
    (drop_last : PyVal) : Except InitError MultiBatchSampler :=
  if isPosIntVal multi_merge_size = false then .error .valueError
  else if isBoolVal drop_last = false then .error .valueError
  else
    match sampler.seq.head? with
    | none => .error .stopIteration
    | some (.scalar _) => .error .valueError
    | some (.batch _) =>
      .ok { sampler := sampler
            batch_size := multi_merge_size.toIntVal.toNat * sampler.batch_size
            merge_size := multi_merge_size.toIntVal.toNat
            drop_last := drop_last.toBoolVal }

/-- The flattening `[idx for mini in batch_list for idx in mini]`: a scalar
item is not iterable, so it models the `TypeError` that would kill the
generator there. -/
def flattenItems : List Item → Option (List Int)
  | [] => some []
  | .scalar _ :: _ => none
  | .batch xs :: rest =>
    match flattenItems rest with
    | none => none
    | some out => some (xs ++ out)

/-- The `drop_last` branch of `MultiBatchSampler.__iter__`: repeatedly draw
`merge` consecutive items and yield their flattening, breaking on
`StopIteration` as soon as fewer than `merge` items remain. Construction
guarantees `1 ≤ merge`; the guard also returns `[]` at `merge = 0`, where the
Python loop would yield the empty batch forever. -/
def multiIterDrop (merge : Nat) (s : List Item) : List (List Int) :=
  if h : 1 ≤ merge ∧ merge ≤ s.length then
    match flattenItems (s.take merge) with
    | none => []
    | some b => b :: multiIterDrop merge (s.drop merge)
  else []
termination_by s.length
decreasing_by
  simp only [List.length_drop]
  omega

/-- One wrapped batch written into the buffer: `batch[idx_in_batch] = idx`
then `idx_in_batch += 1` for each index, an out-of-range write being the
`IndexError` (`none`). -/
def writeBatch (buf : List Int) (idx_in_batch : Nat) : List Int → Option (List Int × Nat)
  | [] => some (buf, idx_in_batch)
  | v :: vs =>
    if idx_in_batch < buf.length then
      writeBatch (buf.set idx_in_batch v) (idx_in_batch + 1) vs
    else none

/-- The non-`drop_last` branch of `MultiBatchSampler.__iter__` from an
intermediate state: current buffer, current write index, remaining wrapped
items. Returns the yielded batches together with `false` when the loop died
on an `IndexError`, or on a scalar wrapped item, over which the inner `for`
cannot iterate. -/
def multiIterNoDropGo (cap : Nat) : List Int → Nat → List Item → List (List Int) × Bool
  | buf, idx_in_batch, [] =>
    if 0 < idx_in_batch then ([buf.take idx_in_batch], true) else ([], true)
  | _, _, .scalar _ :: _ => ([], false)
  | buf, idx_in_batch, .batch indices :: rest =>
    match writeBatch buf idx_in_batch indices with
    | none => ([], false)
    | some (buf2, idx2) =>
      if idx2 = cap then
        let r := multiIterNoDropGo cap (List.replicate cap 0) 0 rest
        (buf2 :: r.1, r.2)
      else
        multiIterNoDropGo cap buf2 idx2 rest

/-- The non-`drop_last` branch of `MultiBatchSampler.__iter__`:
`batch = [0] * self.batch_size; idx_in_batch = 0`, then the loop above,
where `cap` is the derived `batch_size`. -/
def multiIterNoDrop (cap : Nat) (s : List Item) : List (List Int) × Bool :=
  multiIterNoDropGo cap (List.replicate cap 0) 0 s

/-- `MultiBatchSampler.__len__`: floor division under `drop_last`, the
rounded-up quotient `(n + merge - 1) / merge` otherwise; `none` when the
wrapped sampler has no `__len__`. -/
def MultiBatchSampler.len? (m : MultiBatchSampler) : Option Nat :=
  match m.sampler.len? with
  | none => none
  | some n =>
    if m.drop_last then some (n / m.merge_size)
    else some ((n + m.merge_size - 1) / m.merge_size)

/-- Specification-side processing of one drawn item: add the wrapped
sampler's offset to every element of a list item, or to the single scalar
value. -/
def processItem (off : Int) : Item → List Int
  | .batch xs => xs.map (fun idx => idx + off)
  | .scalar n => [n + off]

/-- Specification-side regrouping for the non-`drop_last` branch: cut the
flattened index stream into chunks of `cap`, the last chunk possibly shorter,
an empty remainder producing nothing. -/
def chunksSpec (cap : Nat) (l : List Int) : List (List Int) :=
  if h : cap = 0 ∨ l = [] then []
  else l.take cap :: chunksSpec cap (l.drop cap)
termination_by l.length
decreasing_by
  push_neg at h
  have h1 : 0 < l.length := List.length_pos.mpr h.2
  simp only [List.length_drop]
  omega

/-- The buffer-safety precondition as the claim words it, read literally:
every wrapped batch has length exactly `bs` except possibly the final one,
which is unconstrained. -/
def regularExceptLast (bs : Nat) : List (List Int) → Bool
  | [] => true
  | [_] => true
  | b :: rest => decide (b.length = bs) && regularExceptLast bs rest

/-- The amended buffer-safety precondition: every wrapped batch has length
exactly `bs` except possibly the final one, whose length is at most `bs`. -/
def regularTo (bs : Nat) : List (List Int) → Bool
  | [] => true
  | [b] => decide (b.length ≤ bs)
  | b :: rest => decide (b.length = bs) && regularTo bs rest

/-! ### Helper lemmas about `ConcatSampler` -/

lemma nextAll_of_empty_mem : ∀ (its : List (List Item)),
    (∃ l ∈ its, l = []) → nextAll its = none := by
  intro its
  induction its with
  | nil => rintro ⟨l, hl, _⟩; simp at hl
  | cons l ls ih =>
    rintro ⟨t, ht, hte⟩
    subst hte
    rcases List.mem_cons.mp ht with h1 | h2
    · rw [← h1]; rfl
    · have hrec := ih ⟨[], h2, rfl⟩
      cases hl : l.head? <;> simp [nextAll, hl, hrec]

lemma nextAll_ex_some : ∀ (its : List (List Item)),
    (∀ l ∈ its, l ≠ []) →
    ∃ items, nextAll its = some items ∧ items.length = its.length := by
  intro its
  induction its with
  | nil => intro _; exact ⟨[], rfl, rfl⟩
  | cons l ls ih =>
    intro h
    obtain ⟨items, hi, hlen⟩ := ih (fun t ht => h t (List.mem_cons_of_mem _ ht))
    cases l with
    | nil => exact absurd rfl (h [] (by simp))
    | cons x l2 => exact ⟨x :: items, by simp [nextAll, hi], by simp [hlen]⟩

lemma nextAll_length : ∀ (its : List (List Item)) (items : List Item),
    nextAll its = some items → items.length = its.length := by
  intro its
  induction its with
  | nil =>
    intro items h
    simp only [nextAll, Option.some.injEq] at h
    subst h; rfl
  | cons l ls ih =>
    intro items h
    simp only [nextAll] at h
    cases hl : l.head? <;> rw [hl] at h
    · cases h
    · cases hr : nextAll ls <;> rw [hr] at h
      · cases h
      · injection h with h2
        subst h2
        simp [ih _ hr]

lemma extendList_some (off : Int) : ∀ (xs : List Int),
    extendList (some off) xs = some (xs.map (fun idx => idx + off)) := by
  intro xs
  induction xs with
  | nil => rfl
  | cons x xs ih => simp [extendList, ih]

lemma extendItem_some (offsets : List Int) (i : Nat) (off : Int)
    (h : offsets[i]? = some off) (item : Item) :
    extendItem offsets i item = some (processItem off item) := by
  cases item with
  | batch xs => simp [extendItem, h, extendList_some, processItem]
  | scalar n => simp [extendItem, h, processItem]

lemma concatBatchGo_eq (offsets : List Int) : ∀ (items : List Item) (i : Nat),
    i + items.length ≤ offsets.length →
    concatBatchGo offsets i items =
      some (List.zipWith processItem (offsets.drop i) items).flatten := by
  intro items
  induction items with
  | nil => intro i _; simp [concatBatchGo]
  | cons item rest ih =>
    intro i h
    have hi : i < offsets.length := by
      simp only [List.length_cons] at h; omega
    have hoff : offsets[i]? = some offsets[i] := List.getElem?_eq_getElem hi
    have hdrop : offsets.drop i = offsets[i] :: offsets.drop (i + 1) :=
      List.drop_eq_getElem_cons hi
    have hrest : concatBatchGo offsets (i + 1) rest =
        some (List.zipWith processItem (offsets.drop (i + 1)) rest).flatten := by
      apply ih
      simp only [List.length_cons] at h; omega
    rw [hdrop]
    simp only [concatBatchGo, extendItem_some offsets i offsets[i] hoff item,
      hrest, List.zipWith_cons_cons, List.flatten_cons]

lemma concatIter_step (offsets : List Int) (its : List (List Item))
    (items : List Item) (fuel : Nat) (hh : nextAll its = some items)
    (hlen : its.length ≤ offsets.length) :
    concatIterFuel offsets (fuel + 1) its =
      (List.zipWith processItem offsets items).flatten ::
        concatIterFuel offsets fuel (its.map List.tail) := by
  have hl : items.length = its.length := nextAll_length its items hh
  have hb : concatBatch offsets items =
      some (List.zipWith processItem offsets items).flatten := by
    have h0 := concatBatchGo_eq offsets items 0 (by omega)
    simpa [concatBatch] using h0
  simp [concatIterFuel, hh, hb]

lemma concatIter_exhausted (offsets : List Int) (its : List (List Item))
    (fuel : Nat) (h : ∃ l ∈ its, l = []) : concatIterFuel offsets fuel its = [] := by
  cases fuel with
  | zero => rfl
  | succ f => simp [concatIterFuel, nextAll_of_empty_mem its h]

lemma foldl_min_le_init : ∀ (ns : List Nat) (a : Nat), ns.foldl min a ≤ a := by
  intro ns
  induction ns with
  | nil => intro a; simp
  | cons n ns ih =>
    intro a
    simpa using le_trans (ih (min a n)) (min_le_left a n)

lemma foldl_min_le_mem : ∀ (ns : List Nat) (a x : Nat),
    x ∈ ns → ns.foldl min a ≤ x := by
  intro ns
  induction ns with
  | nil => intro a x hx; simp at hx
  | cons n ns ih =>
    intro a x hx
    rcases List.mem_cons.mp hx with h1 | h2
    · subst h1
      simpa using le_trans (foldl_min_le_init ns (min a x)) (min_le_right a x)
    · exact ih (min a n) x h2

lemma le_foldl_min : ∀ (ns : List Nat) (a b : Nat),
    b ≤ a → (∀ x ∈ ns, b ≤ x) → b ≤ ns.foldl min a := by
  intro ns
  induction ns with
  | nil => intro a b h _; simpa using h
  | cons n ns ih =>
    intro a b h hall
    simp only [List.foldl_cons]
    exact ih (min a n) b (le_min h (hall n (by simp)))
      (fun x hx => hall x (by simp [hx]))

lemma foldl_min_pred : ∀ (ns : List Nat) (a : Nat), 1 ≤ a → (∀ x ∈ ns, 1 ≤ x) →
    (ns.map (fun x => x - 1)).foldl min (a - 1) = ns.foldl min a - 1 := by
  intro ns
  induction ns with
  | nil => intro a _ _; simp
  | cons n ns ih =>
    intro a ha hall
    have hn : 1 ≤ n := hall n (by simp)
    have hmm : min (a - 1) (n - 1) = min a n - 1 := by omega
    simp only [List.map_cons, List.foldl_cons]
    rw [hmm, ih (min a n) (le_min ha hn) (fun x hx => hall x (by simp [hx]))]

lemma concatIter_count : ∀ (fuel : Nat) (l : List Item) (ls : List (List Item))
    (offsets : List Int),
    (l :: ls).length ≤ offsets.length →
    (ls.map List.length).foldl min l.length < fuel →
    (concatIterFuel offsets fuel (l :: ls)).length =
      (ls.map List.length).foldl min l.length := by
  intro fuel
  induction fuel with
  | zero => intro l ls offsets _ hf; omega
  | succ f ih =>
    intro l ls offsets hlen hfuel
    by_cases hemp : ∃ t ∈ l :: ls, t = []
    · have h0 : (ls.map List.length).foldl min l.length = 0 := by
        obtain ⟨t, ht, hte⟩ := hemp
        subst hte
        rcases List.mem_cons.mp ht with h1 | h2
        · rw [← h1]
          have hle := foldl_min_le_init (ls.map List.length) ([] : List Item).length
          simpa using hle
        · have hmem : (0 : Nat) ∈ ls.map List.length :=
            List.mem_map.mpr ⟨[], h2, rfl⟩
          have hle := foldl_min_le_mem (ls.map List.length) l.length 0 hmem
          omega
      rw [concatIter_exhausted offsets _ _ hemp, h0]
      rfl
    · push_neg at hemp
      obtain ⟨items, hsome, _⟩ := nextAll_ex_some _ hemp
      rw [concatIter_step offsets _ items f hsome hlen]
      have hl1 : 1 ≤ l.length := List.length_pos.mpr (hemp l (by simp))
      have hall1 : ∀ x ∈ ls.map List.length, 1 ≤ x := by
        intro x hx
        obtain ⟨t, ht, hte⟩ := List.mem_map.mp hx
        subst hte
        exact List.length_pos.mpr (hemp t (by simp [ht]))
      have hmin1 : 1 ≤ (ls.map List.length).foldl min l.length :=
        le_foldl_min _ _ _ hl1 hall1
      have htails : (ls.map List.tail).map List.length =
          (ls.map List.length).map (fun x => x - 1) := by
        rw [List.map_map, List.map_map]
        exact List.map_congr_left (fun t _ => List.length_tail t)
      have hmeq : ((ls.map List.tail).map List.length).foldl min l.tail.length =
          (ls.map List.length).foldl min l.length - 1 := by
        rw [htails, List.length_tail]
        exact foldl_min_pred _ _ hl1 hall1
      have hlen2 : (l.tail :: ls.map List.tail).length ≤ offsets.length := by
        simpa using hlen
      have hrec := ih l.tail (ls.map List.tail) offsets hlen2
        (by rw [hmeq]; omega)
      simp only [List.map_cons, List.length_cons, hrec, hmeq]
      omega

lemma lensAll_all : ∀ (samplers : List PySampler),
    (∀ s ∈ samplers, s.hasLen = true) →
    lensAll samplers = some (samplers.map (fun s => s.seq.length)) := by
  intro samplers
  induction samplers with
  | nil => intro _; rfl
  | cons s ss ih =>
    intro h
    have hs : s.len? = some s.seq.length := by
      simp [PySampler.len?, h s (by simp)]
    simp [lensAll, hs, ih (fun t ht => h t (by simp [ht]))]

lemma lensAll_missing : ∀ (samplers : List PySampler),
    (∃ s ∈ samplers, s.hasLen = false) → lensAll samplers = none := by
  intro samplers
  induction samplers with
  | nil => rintro ⟨s, hs, _⟩; simp at hs
  | cons s ss ih =>
    rintro ⟨t, ht, hte⟩
    rcases List.mem_cons.mp ht with h1 | h2
    · have hs : s.len? = none := by
        subst h1
        simp [PySampler.len?, hte]
      simp [lensAll, hs]
    · have hrec := ih ⟨t, h2, hte⟩
      cases hs : s.len? <;> simp [lensAll, hs, hrec]

/-! ### Helper lemmas about `MultiBatchSampler` -/

lemma flattenItems_map_batch : ∀ (bs : List (List Int)),
    flattenItems (bs.map Item.batch) = some bs.flatten := by
  intro bs
  induction bs with
  | nil => rfl
  | cons b bs ih => simp [flattenItems, ih]

lemma multiIterDrop_step (merge : Nat) (bs : List (List Int)) (hm : 1 ≤ merge)
    (hlen : merge ≤ bs.length) :
    multiIterDrop merge (bs.map Item.batch) =
      (bs.take merge).flatten ::
        multiIterDrop merge ((bs.drop merge).map Item.batch) := by
  rw [multiIterDrop, dif_pos ⟨hm, by simpa using hlen⟩, ← List.map_take,
    flattenItems_map_batch, ← List.map_drop]

lemma multiIterDrop_stop (merge : Nat) (s : List Item)
    (h : ¬(1 ≤ merge ∧ merge ≤ s.length)) : multiIterDrop merge s = [] := by
  rw [multiIterDrop, dif_neg h]

lemma multiIterDrop_closed_aux (merge : Nat) (hm : 1 ≤ merge) :
    ∀ (n : Nat) (bs : List (List Int)), bs.length ≤ n →
    multiIterDrop merge (bs.map Item.batch) =
      (List.range (bs.length / merge)).map
        (fun k => ((bs.drop (k * merge)).take merge).flatten) := by
  intro n
  induction n with
  | zero =>
    intro bs hb
    have hbs : bs = [] := List.eq_nil_of_length_eq_zero (by omega)
    subst hbs
    simp only [List.map_nil]
    rw [multiIterDrop_stop merge [] (by simp; omega)]
    simp
  | succ n ih =>
    intro bs hb
    by_cases hlen : merge ≤ bs.length
    · rw [multiIterDrop_step merge bs hm hlen]
      rw [ih (bs.drop merge) (by simp [List.length_drop]; omega)]
      have hdiv : bs.length / merge = (bs.drop merge).length / merge + 1 := by
        rw [List.length_drop, Nat.div_eq_sub_div (by omega) hlen]
      rw [hdiv, List.range_succ_eq_map]
      simp only [List.map_cons, Nat.zero_mul, List.drop_zero, List.map_map]
      congr 1
      apply List.map_congr_left
      intro k _
      simp only [Function.comp_apply, List.drop_drop, Nat.succ_mul]
      rw [Nat.add_comm]
    · rw [multiIterDrop_stop merge (bs.map Item.batch)
        (by simp; intro _; omega)]
      rw [Nat.div_eq_of_lt (by omega)]
      simp

lemma multiIterDrop_closed (merge : Nat) (hm : 1 ≤ merge) (bs : List (List Int)) :
    multiIterDrop merge (bs.map Item.batch) =
      (List.range (bs.length / merge)).map
        (fun k => ((bs.drop (k * merge)).take merge).flatten) :=
  multiIterDrop_closed_aux merge hm bs.length bs le_rfl

lemma writeBatch_eq : ∀ (vs buf : List Int) (idx : Nat),
    idx + vs.length ≤ buf.length →
    writeBatch buf idx vs =
      some (buf.take idx ++ vs ++ buf.drop (idx + vs.length), idx + vs.length) := by
  intro vs
  induction vs with
  | nil =>
    intro buf idx h
    simp [writeBatch, List.take_append_drop]
  | cons v vs ih =>
    intro buf idx h
    simp only [List.length_cons] at h
    have hidx : idx < buf.length := by omega
    have hlen2 : idx + 1 + vs.length ≤ (buf.set idx v).length := by
      simp only [List.length_set]; omega
    rw [writeBatch, if_pos hidx, ih (buf.set idx v) (idx + 1) hlen2]
    have hset : buf.set idx v = buf.take idx ++ v :: buf.drop (idx + 1) :=
      List.set_eq_take_cons_drop v hidx
    have htl : (buf.take idx).length = idx := by
      rw [List.length_take]; omega
    have htake : (buf.set idx v).take (idx + 1) = buf.take idx ++ [v] := by
      rw [hset, List.take_append_eq_append_take,
        List.take_of_length_le (by omega), htl]
      simp
    have hdrop : (buf.set idx v).drop (idx + 1 + vs.length) =
        buf.drop (idx + 1 + vs.length) := by
      rw [hset, List.drop_append_eq_append_drop,
        List.drop_eq_nil_of_le (by omega), htl]
      have h2 : idx + 1 + vs.length - idx = vs.length + 1 := by omega
      rw [h2]
      simp only [List.nil_append, List.drop_succ_cons, List.drop_drop]
    rw [htake, hdrop]
    have h3 : idx + 1 + vs.length = idx + (vs.length + 1) := by omega
    simp [h3]

lemma writeBatch_bound : ∀ (vs buf : List Int) (idx : Nat) (p : List Int × Nat),
    writeBatch buf idx vs = some p → idx ≤ buf.length →
    idx + vs.length ≤ buf.length ∧ p.2 = idx + vs.length := by
  intro vs
  induction vs with
  | nil =>
    intro buf idx p h hle
    simp only [writeBatch, Option.some.injEq] at h
    subst h
    simpa using hle
  | cons v vs ih =>
    intro buf idx p h _
    rw [writeBatch] at h
    by_cases hidx : idx < buf.length
    · rw [if_pos hidx] at h
      obtain ⟨h1, h2⟩ := ih _ _ _ h (by rw [List.length_set]; omega)
      rw [List.length_set] at h1
      refine ⟨by simp only [List.length_cons]; omega, ?_⟩
      rw [h2]
      simp only [List.length_cons]
      omega
    · rw [if_neg hidx] at h
      cases h

lemma writeBatch_some (vs buf : List Int) (idx : Nat)
    (h : idx + vs.length ≤ buf.length) :
    ∃ buf2, writeBatch buf idx vs = some (buf2, idx + vs.length) ∧
      buf2.length = buf.length := by
  refine ⟨buf.take idx ++ vs ++ buf.drop (idx + vs.length),
    writeBatch_eq vs buf idx h, ?_⟩
  simp only [List.length_append, List.length_take, List.length_drop]
  omega

lemma noDropGo_nil_ok (cap : Nat) (buf : List Int) (idx : Nat) :
    (multiIterNoDropGo cap buf idx []).2 = true := by
  simp only [multiIterNoDropGo]
  split <;> rfl

lemma noDropGo_ok : ∀ (batches : List (List Int)) (merge bs : Nat)
    (buf : List Int) (j : Nat), 1 ≤ merge → buf.length = merge * bs →
    j < merge → regularTo bs batches = true →
    (multiIterNoDropGo (merge * bs) buf (j * bs) (batches.map Item.batch)).2 = true := by
  intro batches
  induction batches with
  | nil =>
    intro merge bs buf j _ _ _ _
    simp only [List.map_nil]
    exact noDropGo_nil_ok _ _ _
  | cons b rest ih =>
    intro merge bs buf j hm hbuf hj hreg
    have hble : b.length ≤ bs := by
      cases rest with
      | nil => simpa [regularTo] using hreg
      | cons r rs =>
        have h2 : (decide (b.length = bs) && regularTo bs (r :: rs)) = true := hreg
        simp only [Bool.and_eq_true, decide_eq_true_eq] at h2
        omega
    have hregr : regularTo bs rest = true := by
      cases rest with
      | nil => rfl
      | cons r rs =>
        have h2 : (decide (b.length = bs) && regularTo bs (r :: rs)) = true := hreg
        simp only [Bool.and_eq_true, decide_eq_true_eq] at h2
        exact h2.2
    have hwle : j * bs + b.length ≤ buf.length := by
      rw [hbuf]
      have hsucc : (j + 1) * bs ≤ merge * bs := Nat.mul_le_mul_right bs hj
      have hs2 : (j + 1) * bs = j * bs + bs := Nat.succ_mul j bs
      omega
    obtain ⟨buf2, hw, hlen2⟩ := writeBatch_some b buf (j * bs) hwle
    simp only [List.map_cons, multiIterNoDropGo, hw]
    by_cases hcap : j * bs + b.length = merge * bs
    · rw [if_pos hcap]
      have hrec := ih merge bs (List.replicate (merge * bs) 0) 0 hm (by simp)
        hm hregr
      rw [Nat.zero_mul] at hrec
      exact hrec
    · rw [if_neg hcap]
      cases rest with
      | nil =>
        simp only [List.map_nil]
        exact noDropGo_nil_ok _ _ _
      | cons r rs =>
        have hbeq : b.length = bs := by
          have h2 : (decide (b.length = bs) && regularTo bs (r :: rs)) = true := hreg
          simp only [Bool.and_eq_true, decide_eq_true_eq] at h2
          exact h2.1
        have hj2 : j + 1 < merge := by
          by_contra hcon
          push_neg at hcon
          apply hcap
          have hjm : j + 1 = merge := by omega
          calc j * bs + b.length = j * bs + bs := by rw [hbeq]
            _ = (j + 1) * bs := (Nat.succ_mul j bs).symm
            _ = merge * bs := by rw [hjm]
        have hrec := ih merge bs buf2 (j + 1) hm (by rw [hlen2, hbuf]) hj2 hregr
        rw [Nat.succ_mul] at hrec
        rw [hbeq]
        exact hrec

lemma chunksSpec_nil (cap : Nat) : chunksSpec cap [] = [] := by
  rw [chunksSpec]
  simp

lemma chunksSpec_short (cap : Nat) (l : List Int) (hcap : 0 < cap)
    (hne : l ≠ []) (hlen : l.length ≤ cap) : chunksSpec cap l = [l] := by
  rw [chunksSpec, dif_neg (by push_neg; exact ⟨by omega, hne⟩)]
  rw [List.take_of_length_le hlen, List.drop_eq_nil_of_le hlen, chunksSpec_nil]

lemma chunksSpec_cons (cap : Nat) (P l : List Int) (hcap : 0 < cap)
    (hP : P.length = cap) : chunksSpec cap (P ++ l) = P :: chunksSpec cap l := by
  have hPne : P ≠ [] := List.ne_nil_of_length_pos (by omega)
  rw [chunksSpec, dif_neg (by
    push_neg
    refine ⟨by omega, ?_⟩
    intro hc
    rcases List.append_eq_nil.mp hc with ⟨h1, _⟩
    exact hPne h1)]
  rw [List.take_left' hP, List.drop_left' hP]

lemma noDropGo_yield : ∀ (batches : List (List Int)) (cap : Nat)
    (buf : List Int) (idx : Nat), 0 < cap → buf.length = cap → idx < cap →
    (multiIterNoDropGo cap buf idx (batches.map Item.batch)).2 = true →
    (multiIterNoDropGo cap buf idx (batches.map Item.batch)).1 =
      chunksSpec cap (buf.take idx ++ batches.flatten) := by
  intro batches
  induction batches with
  | nil =>
    intro cap buf idx hcap hbuf hidx _
    simp only [List.map_nil, multiIterNoDropGo, List.flatten_nil,
      List.append_nil]
    by_cases h0 : 0 < idx
    · rw [if_pos h0]
      have htl : (buf.take idx).length = idx := by
        rw [List.length_take]; omega
      have hne : buf.take idx ≠ [] :=
        List.ne_nil_of_length_pos (by rw [htl]; omega)
      rw [chunksSpec_short cap _ hcap hne (by rw [htl]; omega)]
    · rw [if_neg h0]
      have h00 : idx = 0 := by omega
      subst h00
      simp [chunksSpec_nil]
  | cons b rest ih =>
    intro cap buf idx hcap hbuf hidx hok
    cases hw : writeBatch buf idx b with
    | none =>
      exfalso
      simp only [List.map_cons, multiIterNoDropGo, hw] at hok
      simp at hok
    | some p =>
      obtain ⟨buf2, idx2⟩ := p
      obtain ⟨hble, hp2⟩ := writeBatch_bound b buf idx (buf2, idx2) hw (by omega)
      simp only at hp2
      subst hp2
      have hweq := writeBatch_eq b buf idx hble
      rw [hw] at hweq
      simp only [Option.some.injEq, Prod.mk.injEq] at hweq
      have hbuf2 : buf2 = buf.take idx ++ b ++ buf.drop (idx + b.length) :=
        hweq.1
      have htl : (buf.take idx).length = idx := by
        rw [List.length_take]; omega
      simp only [List.map_cons, multiIterNoDropGo, hw] at hok ⊢
      by_cases hcap2 : idx + b.length = cap
      · rw [if_pos hcap2] at hok ⊢
        have hok2 : (multiIterNoDropGo cap (List.replicate cap 0) 0
            (rest.map Item.batch)).2 = true := hok
        have hrec := ih cap (List.replicate cap 0) 0 hcap (by simp) hcap hok2
        simp only [List.take_zero, List.nil_append] at hrec
        have hbuf2T : buf2 = buf.take idx ++ b := by
          rw [hbuf2, hcap2, ← hbuf, List.drop_length]
          simp
        have hplen : (buf.take idx ++ b).length = cap := by
          simp only [List.length_append, htl]
          omega
        show buf2 :: (multiIterNoDropGo cap (List.replicate cap 0) 0
          (rest.map Item.batch)).1 = _
        rw [hrec, hbuf2T, List.flatten_cons, ← List.append_assoc]
        exact (chunksSpec_cons cap _ _ hcap hplen).symm
      · rw [if_neg hcap2] at hok ⊢
        have hidx2 : idx + b.length < cap := by omega
        have hlen2 : buf2.length = cap := by
          rw [hbuf2]
          simp only [List.length_append, List.length_take, List.length_drop]
          omega
        have hrec := ih cap buf2 (idx + b.length) hcap hlen2 hidx2 hok
        rw [hrec]
        have htake2 : buf2.take (idx + b.length) = buf.take idx ++ b := by
          rw [hbuf2]
          exact List.take_left' (by simp only [List.length_append, htl])
        rw [htake2, List.flatten_cons, ← List.append_assoc]

lemma peekAll_of_empty_mem : ∀ (samplers : List PySampler),
    (∃ s ∈ samplers, s.seq = []) → peekAll samplers = none := by
  intro samplers
  induction samplers with
  | nil => rintro ⟨s, hs, _⟩; simp at hs
  | cons s ss ih =>
    rintro ⟨t, ht, hte⟩
    rcases List.mem_cons.mp ht with h1 | h2
    · have hh : s.seq.head? = none := by
        rw [← h1, hte]
        rfl
      simp [peekAll, hh]
    · have hrec := ih ⟨t, h2, hte⟩
      cases hh : s.seq.head? <;> simp [peekAll, hh, hrec]

lemma peekAll_ok_nonempty : ∀ (samplers : List PySampler) (xs : List Item),
    peekAll samplers = some xs → ∀ s ∈ samplers, s.seq ≠ [] := by
  intro samplers
  induction samplers with
  | nil => intro xs _ s hs; simp at hs
  | cons s ss ih =>
    intro xs h t ht
    simp only [peekAll] at h
    cases hh : s.seq.head? <;> rw [hh] at h
    · cases h
    · cases hr : peekAll ss <;> rw [hr] at h
      · cases h
      · rcases List.mem_cons.mp ht with h1 | h2
        · subst h1
          intro hte
          rw [hte] at hh
          cases hh
        · exact ih _ hr t h2

/-! ### Claim theorems -/

/-- Claim C1: at every `ConcatSampler.__iter__` step at which no wrapped
sampler is yet exhausted, the yielded batch is the concatenation, in
wrapped-sampler order, of each drawn item processed with that sampler's
offset (a list item contributes every element plus the offset in order, a
scalar item contributes the single value plus the offset); in particular,
with samplers over `range(3)` and `range(5)` and offsets `[0, 3]` computed
from cumulative sizes `[3, 8]`, the full yielded sequence is
`[[0, 3], [1, 4], [2, 5]]` for every sufficient fuel. -/
theorem concat_iter_step_and_example :
    (∀ (offsets : List Int) (its : List (List Item)) (items : List Item)
      (fuel : Nat), nextAll its = some items → its.length ≤ offsets.length →
      concatIterFuel offsets (fuel + 1) its =
        (List.zipWith processItem offsets items).flatten ::
          concatIterFuel offsets fuel (its.map List.tail))
    ∧ (∀ extra : Nat,
      concatIterFuel [0, 3] (extra + 4)
        [[Item.scalar 0, Item.scalar 1, Item.scalar 2],
         [Item.scalar 0, Item.scalar 1, Item.scalar 2, Item.scalar 3,
          Item.scalar 4]] = [[0, 3], [1, 4], [2, 5]]) := by
  constructor
  · exact fun offsets its items fuel hh hlen =>
      concatIter_step offsets its items fuel hh hlen
  · intro extra
    rw [show extra + 4 = extra + 3 + 1 from rfl,
      concatIter_step [0, 3]
        [[Item.scalar 0, Item.scalar 1, Item.scalar 2],
         [Item.scalar 0, Item.scalar 1, Item.scalar 2, Item.scalar 3,
          Item.scalar 4]]
        [Item.scalar 0, Item.scalar 0] (extra + 3) rfl (by simp)]
    simp only [List.map_cons, List.map_nil, List.tail_cons]
    rw [show extra + 3 = extra + 2 + 1 from rfl,
      concatIter_step [0, 3]
        [[Item.scalar 1, Item.scalar 2],
         [Item.scalar 1, Item.scalar 2, Item.scalar 3, Item.scalar 4]]
        [Item.scalar 1, Item.scalar 1] (extra + 2) rfl (by simp)]
    simp only [List.map_cons, List.map_nil, List.tail_cons]
    rw [show extra + 2 = extra + 1 + 1 from rfl,
      concatIter_step [0, 3]
        [[Item.scalar 2], [Item.scalar 2, Item.scalar 3, Item.scalar 4]]
        [Item.scalar 2, Item.scalar 2] (extra + 1) rfl (by simp)]
    simp only [List.map_cons, List.map_nil, List.tail_cons]
    rw [concatIter_exhausted [0, 3] [[], [Item.scalar 3, Item.scalar 4]]
      (extra + 1) ⟨[], by simp, rfl⟩]
    simp only [List.zipWith_cons_cons, List.zipWith_nil_right, processItem,
      List.flatten_cons, List.flatten_nil, List.append_nil, List.nil_append,
      List.singleton_append]
    norm_num

/-- Witness for C1 at a concrete input: one sampler with offset 5 and first
item 7 yields `[12]` on the first step. -/
theorem concat_iter_step_and_example_witness :
    concatIterFuel [5] 1 [[Item.scalar 7]] = [[12]] := by
  have h := concat_iter_step_and_example.1 [5] [[Item.scalar 7]]
    [Item.scalar 7] 0 rfl (by simp)
  simpa [processItem] using h

/-- Claim C2: with `drop_last = true`, `MultiBatchSampler.__iter__` yields
exactly the flattenings of each complete group of `merge` consecutive wrapped
batches, in draw order, and nothing for a trailing group of fewer than
`merge` batches; for wrapped batches `[[0], [1], [2]]` and merge factor 2 the
output is exactly `[[0, 1]]`. -/
theorem multi_drop_last_groups :
    (∀ (merge : Nat) (bs : List (List Int)), 1 ≤ merge →
      multiIterDrop merge (bs.map Item.batch) =
        (List.range (bs.length / merge)).map
          (fun k => ((bs.drop (k * merge)).take merge).flatten))
    ∧ multiIterDrop 2 [Item.batch [0], Item.batch [1], Item.batch [2]] =
        [[0, 1]] := by
  constructor
  · exact fun merge bs hm => multiIterDrop_closed merge hm bs
  · have h := multiIterDrop_closed 2 (by omega) [[0], [1], [2]]
    simp only [List.map_cons, List.map_nil] at h
    rw [h]
    decide

/-- Witness for C2 at a concrete input: merge factor 1 over a single wrapped
batch `[4]` yields `[[4]]`. -/
theorem multi_drop_last_groups_witness :
    multiIterDrop 1 [Item.batch [4]] = [[4]] := by
  have h := multi_drop_last_groups.1 1 [[4]] (by omega)
  simp only [List.map_cons, List.map_nil] at h
  rw [h]
  decide

/-- Claim C3: with `drop_last = false`, whenever the buffered loop completes
without an out-of-bounds write its yielded batches are exactly the flattened
wrapped indices cut into chunks of the capacity `batch_size`, the final
partial chunk emitted truncated and an empty remainder emitting nothing; for
wrapped batches `[[0], [1], [2]]` and capacity 2 (merge factor 2, wrapped
batch size 1) the outputs are `[0, 1]` then `[2]`. -/
theorem multi_no_drop_chunks :
    (∀ (cap : Nat) (batches : List (List Int)), 0 < cap →
      (multiIterNoDrop cap (batches.map Item.batch)).2 = true →
      (multiIterNoDrop cap (batches.map Item.batch)).1 =
        chunksSpec cap batches.flatten)
    ∧ multiIterNoDrop 2 [Item.batch [0], Item.batch [1], Item.batch [2]] =
        ([[0, 1], [2]], true) := by
  constructor
  · intro cap batches hcap hok
    have h := noDropGo_yield batches cap (List.replicate cap 0) 0 hcap
      (by simp) hcap hok
    simp only [List.take_zero, List.nil_append] at h
    exact h
  · decide

/-- Witness for C3 at a concrete input: capacity 2 over wrapped batches
`[[0], [1], [2]]`. -/
theorem multi_no_drop_chunks_witness :
    (multiIterNoDrop 2 ([[0], [1], [2]].map Item.batch)).1 =
      chunksSpec 2 ([[0], [1], [2]] : List (List Int)).flatten :=
  multi_no_drop_chunks.1 2 [[0], [1], [2]] (by decide) (by decide)

/-- Claim C4: for a `ConcatSampler` over a non-empty list of wrapped samplers
that all support length queries, iteration ends as soon as any wrapped
sampler is exhausted, so the number of yielded batches equals the value of
the length query, which is the minimum wrapped length; and the length query
fails (`TypeError`) when some wrapped sampler lacks `__len__`. -/
theorem concat_min_length :
    (∀ (s : PySampler) (ss : List PySampler) (offsets : List Int)
      (fuel n : Nat), (∀ t ∈ s :: ss, t.hasLen = true) →
      (s :: ss).length ≤ offsets.length →
      concatLen? (s :: ss) = some n → n < fuel →
      (concatIterFuel offsets fuel ((s :: ss).map PySampler.seq)).length = n)
    ∧ (∀ samplers : List PySampler,
      (∃ t ∈ samplers, t.hasLen = false) → concatLen? samplers = none) := by
  constructor
  · intro s ss offsets fuel n hall hlen hn hfuel
    have hl := lensAll_all (s :: ss) hall
    simp only [List.map_cons] at hl
    simp only [concatLen?, hl, Option.some.injEq] at hn
    have hmap : (ss.map PySampler.seq).map List.length =
        ss.map (fun t => t.seq.length) := by
      rw [List.map_map]
      exact List.map_congr_left fun t _ => rfl
    have hcount := concatIter_count fuel s.seq (ss.map PySampler.seq) offsets
      (by simpa using hlen) (by rw [hmap, hn]; exact hfuel)
    simp only [List.map_cons]
    rw [hcount, hmap, hn]
  · intro samplers hex
    simp only [concatLen?, lensAll_missing samplers hex]

/-- Witness for C4 at a concrete input: wrapped lengths 4 and 7 give exactly
4 yielded batches, matching the length query. -/
theorem concat_min_length_witness :
    (concatIterFuel [0, 0] 9
      (([{ seq := List.replicate 4 (Item.scalar 0) },
         { seq := List.replicate 7 (Item.scalar 1) }] :
          List PySampler).map PySampler.seq)).length = 4 :=
  concat_min_length.1 { seq := List.replicate 4 (Item.scalar 0) }
    [{ seq := List.replicate 7 (Item.scalar 1) }] [0, 0] 9 4
    (by decide) (by decide) (by decide) (by decide)

/-- Claim C5: `MultiBatchSampler` construction raises `ValueError` exactly
when the merge factor is not a positive non-boolean integer, or the drop-last
flag is not boolean-typed, or the wrapped sampler's first item is a scalar;
and it succeeds exactly when the merge factor is a positive non-boolean
integer, the drop-last flag is a boolean, and the first wrapped item is a
list. -/
theorem multi_init_validation :
    ∀ (s : PySampler) (mv dv : PyVal),
      (MultiBatchSampler.mk? s mv dv = .error .valueError ↔
        isPosIntVal mv = false ∨ isBoolVal dv = false ∨
          ∃ n, s.seq.head? = some (Item.scalar n))
      ∧ ((∃ m, MultiBatchSampler.mk? s mv dv = .ok m) ↔
        isPosIntVal mv = true ∧ isBoolVal dv = true ∧
          ∃ xs, s.seq.head? = some (Item.batch xs)) := by
  intro s mv dv
  by_cases hm : isPosIntVal mv = false
  · constructor
    · simp [MultiBatchSampler.mk?, hm]
    · simp [MultiBatchSampler.mk?, hm]
  · simp only [Bool.not_eq_false] at hm
    by_cases hd : isBoolVal dv = false
    · constructor
      · simp [MultiBatchSampler.mk?, hm, hd]
      · simp [MultiBatchSampler.mk?, hm, hd]
    · simp only [Bool.not_eq_false] at hd
      cases hs : s.seq.head? with
      | none =>
        constructor
        · simp [MultiBatchSampler.mk?, hm, hd, hs]
        · simp [MultiBatchSampler.mk?, hm, hd, hs]
      | some item =>
        cases item with
        | scalar n =>
          constructor
          · simp [MultiBatchSampler.mk?, hm, hd, hs]
          · simp [MultiBatchSampler.mk?, hm, hd, hs]
        | batch xs =>
          constructor
          · simp [MultiBatchSampler.mk?, hm, hd, hs]
          · simp [MultiBatchSampler.mk?, hm, hd, hs]

/-- Witness for C5 at concrete inputs: merge factor 0 is rejected with
`ValueError`, and merge factor 2 with a boolean flag and a list first item
is accepted. -/
theorem multi_init_validation_witness :
    MultiBatchSampler.mk? { seq := [Item.batch [0]], batch_size := 1 }
      (.int 0) (.bool true) = .error .valueError ∧
    ∃ m, MultiBatchSampler.mk? { seq := [Item.batch [0]], batch_size := 1 }
      (.int 2) (.bool true) = .ok m :=
  ⟨(multi_init_validation { seq := [Item.batch [0]], batch_size := 1 }
      (.int 0) (.bool true)).1.mpr (Or.inl (by decide)),
   (multi_init_validation { seq := [Item.batch [0]], batch_size := 1 }
      (.int 2) (.bool true)).2.mpr ⟨by decide, by decide, [0], rfl⟩⟩

/-- Claim C6: a `ConcatSampler` constructed with a cumulative-sizes list
stores offsets `[0] + sizes[:-1]`, so the offset of wrapped sampler `i + 1`
is the size entry of dataset `i` (exclusive prefix, offset 0 first); with no
sizes list all offsets are 0; and sizes `[3, 8]` give offsets `[0, 3]`. -/
theorem concat_offsets :
    (∀ (samplers : List PySampler) (sizes : List Int) (c : ConcatSampler),
      ConcatSampler.mk? samplers (some sizes) = .ok c →
      c.cumulative_indices = 0 :: sizes.dropLast ∧
        c.cumulative_indices[0]? = some 0 ∧
        ∀ i : Nat, i + 1 < sizes.length →
          c.cumulative_indices[i + 1]? = sizes[i]?)
    ∧ (∀ (samplers : List PySampler) (c : ConcatSampler),
      ConcatSampler.mk? samplers none = .ok c →
      c.cumulative_indices = List.replicate samplers.length 0)
    ∧ (∀ (samplers : List PySampler) (c : ConcatSampler),
      ConcatSampler.mk? samplers (some [3, 8]) = .ok c →
      c.cumulative_indices = [0, 3]) := by
  refine ⟨?_, ?_, ?_⟩
  · intro samplers sizes c hok
    have hc : c.cumulative_indices = 0 :: sizes.dropLast := by
      cases hp : peekAll samplers with
      | none => rw [ConcatSampler.mk?, hp] at hok; cases hok
      | some si =>
        rw [ConcatSampler.mk?, hp] at hok
        injection hok with hok
        rw [← hok]
    refine ⟨hc, by rw [hc]; simp, ?_⟩
    intro i hi
    rw [hc, List.getElem?_cons_succ, List.dropLast_eq_take,
      List.getElem?_take]
    rw [if_pos (by omega)]
  · intro samplers c hok
    cases hp : peekAll samplers with
    | none => rw [ConcatSampler.mk?, hp] at hok; cases hok
    | some si =>
      rw [ConcatSampler.mk?, hp] at hok
      injection hok with hok
      rw [← hok]
  · intro samplers c hok
    cases hp : peekAll samplers with
    | none => rw [ConcatSampler.mk?, hp] at hok; cases hok
    | some si =>
      rw [ConcatSampler.mk?, hp] at hok
      injection hok with hok
      rw [← hok]
      rfl

/-- Witness for C6 at a concrete input: one wrapped sampler, sizes `[3, 8]`,
stored offsets `[0, 3]`. -/
theorem concat_offsets_witness :
    ({ samplers := [{ seq := [Item.scalar 0] }], batch_size := 1,
       cumulative_indices := [0, 3] } : ConcatSampler).cumulative_indices =
      [0, 3] :=
  concat_offsets.2.2 [{ seq := [Item.scalar 0] }] _ (by rfl)

/-- Claim C7: for a `MultiBatchSampler` whose wrapped sampler supports a
length query, the length query returns `len(wrapped) / merge` rounded down
under `drop_last` and rounded up (`⌈len(wrapped) / merge⌉`, computed as
`(len + merge - 1) / merge`) otherwise. -/
theorem multi_len_floor_ceil :
    ∀ (s : PySampler) (mv dv : PyVal) (m : MultiBatchSampler),
      MultiBatchSampler.mk? s mv dv = .ok m → s.hasLen = true →
      (m.drop_last = true → m.len? = some (s.seq.length / m.merge_size)) ∧
      (m.drop_last = false → m.len? = some (s.seq.length ⌈/⌉ m.merge_size)) := by
  intro s mv dv m hok hlen
  have hsampler : m.sampler = s := by
    rw [MultiBatchSampler.mk?] at hok
    split at hok
    · cases hok
    · split at hok
      · cases hok
      · split at hok
        · cases hok
        · cases hok
        · injection hok with hok
          rw [← hok]
  have hq : m.sampler.len? = some s.seq.length := by
    rw [hsampler, PySampler.len?, if_pos hlen]
  constructor
  · intro hdrop
    simp [MultiBatchSampler.len?, hq, hdrop]
  · intro hdrop
    simp [MultiBatchSampler.len?, hq, hdrop, Nat.ceilDiv_eq_add_pred_div]

/-- Witness for C7 at a concrete input: wrapped length 10 and merge factor 3
give length 3 with `drop_last` and length 4 without. -/
theorem multi_len_floor_ceil_witness :
    ({ sampler := { seq := List.replicate 10 (Item.batch [0]), batch_size := 1 },
       batch_size := 3, merge_size := 3, drop_last := true } :
        MultiBatchSampler).len? = some 3 ∧
    ({ sampler := { seq := List.replicate 10 (Item.batch [0]), batch_size := 1 },
       batch_size := 3, merge_size := 3, drop_last := false } :
        MultiBatchSampler).len? = some 4 := by
  constructor
  · have h := (multi_len_floor_ceil
      { seq := List.replicate 10 (Item.batch [0]), batch_size := 1 }
      (.int 3) (.bool true) _ (by rfl) rfl).1 rfl
    simpa using h
  · have h := (multi_len_floor_ceil
      { seq := List.replicate 10 (Item.batch [0]), batch_size := 1 }
      (.int 3) (.bool false) _ (by rfl) rfl).2 rfl
    simpa [Nat.ceilDiv_eq_add_pred_div] using h

/-- Counterexample to claim C8 as stated: the construction succeeds with one
wrapped sampler and the two-entry cumulative-sizes list `[3, 8]`, yet the
stored offsets list `[0, 3]` has length 2 while the samplers list has
length 1. -/
theorem concat_offsets_length_mismatch :
    ConcatSampler.mk? [{ seq := [Item.scalar 0] }] (some [3, 8]) =
      .ok { samplers := [{ seq := [Item.scalar 0] }], batch_size := 1,
            cumulative_indices := [0, 3] } ∧
    ¬({ samplers := [{ seq := [Item.scalar 0] }], batch_size := 1,
        cumulative_indices := [0, 3] } :
          ConcatSampler).cumulative_indices.length =
      ({ samplers := [{ seq := [Item.scalar 0] }], batch_size := 1,
         cumulative_indices := [0, 3] } :
           ConcatSampler).samplers.length := by
  exact ⟨by rfl, by decide⟩

/-- Claim C8 (amended): the stored offsets list has the same length as the
stored samplers list whenever no cumulative-sizes list is supplied, or the
supplied list is non-empty and has exactly as many entries as there are
wrapped samplers. -/
theorem concat_offsets_length_eq :
    (∀ (samplers : List PySampler) (c : ConcatSampler),
      ConcatSampler.mk? samplers none = .ok c →
      c.cumulative_indices.length = c.samplers.length)
    ∧ (∀ (samplers : List PySampler) (sizes : List Int) (c : ConcatSampler),
      sizes ≠ [] → sizes.length = samplers.length →
      ConcatSampler.mk? samplers (some sizes) = .ok c →
      c.cumulative_indices.length = c.samplers.length) := by
  constructor
  · intro samplers c hok
    cases hp : peekAll samplers with
    | none => rw [ConcatSampler.mk?, hp] at hok; cases hok
    | some si =>
      rw [ConcatSampler.mk?, hp] at hok
      injection hok with hok
      rw [← hok]
      simp
  · intro samplers sizes c hne hlen hok
    cases hp : peekAll samplers with
    | none => rw [ConcatSampler.mk?, hp] at hok; cases hok
    | some si =>
      rw [ConcatSampler.mk?, hp] at hok
      injection hok with hok
      rw [← hok]
      simp only [List.length_cons, List.length_dropLast]
      have h0 : 0 < sizes.length := List.length_pos.mpr hne
      omega

/-- Witness for the amended C8 at a concrete input: two samplers with sizes
`[3, 8]` store two offsets. -/
theorem concat_offsets_length_eq_witness :
    ({ samplers := [{ seq := [Item.scalar 0] }, { seq := [Item.scalar 0] }],
       batch_size := 2, cumulative_indices := [0, 3] } :
         ConcatSampler).cumulative_indices.length =
    ({ samplers := [{ seq := [Item.scalar 0] }, { seq := [Item.scalar 0] }],
       batch_size := 2, cumulative_indices := [0, 3] } :
         ConcatSampler).samplers.length :=
  concat_offsets_length_eq.2
    [{ seq := [Item.scalar 0] }, { seq := [Item.scalar 0] }] [3, 8] _
    (by decide) (by decide) (by rfl)

/-- Counterexample to claim C9 as stated: with merge factor 1 and wrapped
batch size 1 (capacity 1), the single wrapped batch `[7, 8]` is the final
batch, so the literal precondition holds, yet the write index passes the
capacity and the iteration dies on the out-of-bounds write instead of
yielding. -/
theorem multi_no_drop_overflow_cex :
    regularExceptLast 1 [[7, 8]] = true ∧
    (multiIterNoDrop (1 * 1) ([[7, 8]].map Item.batch)).2 = false ∧
    (multiIterNoDrop (1 * 1) ([[7, 8]].map Item.batch)).1 = [] := by
  decide

/-- Claim C9 (amended): with `drop_last = false`, if every wrapped batch has
length exactly the wrapped sampler's `batch_size` except possibly the final
one, whose length is at most that `batch_size`, then every buffer write stays
within the capacity `merge * batch_size` and iteration never raises an index
error. -/
theorem multi_no_drop_safe :
    ∀ (merge bs : Nat) (batches : List (List Int)), 1 ≤ merge →
      regularTo bs batches = true →
      (multiIterNoDrop (merge * bs) (batches.map Item.batch)).2 = true := by
  intro merge bs batches hm hreg
  have h := noDropGo_ok batches merge bs (List.replicate (merge * bs) 0) 0 hm
    (by simp) hm hreg
  rw [Nat.zero_mul] at h
  exact h

/-- Witness for the amended C9 at a concrete input: merge factor 2, wrapped
batch size 1, wrapped batches `[[0], [1], [2]]`. -/
theorem multi_no_drop_safe_witness :
    (multiIterNoDrop (2 * 1) ([[0], [1], [2]].map Item.batch)).2 = true :=
  multi_no_drop_safe 2 1 [[0], [1], [2]] (by decide) (by decide)

/-- Claim C10: constructing a `ConcatSampler` with some empty wrapped
sampler, or a `MultiBatchSampler` over an empty wrapped sampler (with
otherwise valid arguments), raises `StopIteration` at construction time,
because both constructors draw the first item of each wrapped sampler; hence
every successful construction has only non-empty wrapped samplers. -/
theorem empty_sampler_init_fails :
    (∀ (samplers : List PySampler) (sizes : Option (List Int)),
      (∃ s ∈ samplers, s.seq = []) →
      ConcatSampler.mk? samplers sizes = .error .stopIteration)
    ∧ (∀ (samplers : List PySampler) (sizes : Option (List Int))
      (c : ConcatSampler), ConcatSampler.mk? samplers sizes = .ok c →
      ∀ s ∈ samplers, s.seq ≠ [])
    ∧ (∀ (s : PySampler) (mv dv : PyVal), isPosIntVal mv = true →
      isBoolVal dv = true → s.seq = [] →
      MultiBatchSampler.mk? s mv dv = .error .stopIteration)
    ∧ (∀ (s : PySampler) (mv dv : PyVal) (m : MultiBatchSampler),
      MultiBatchSampler.mk? s mv dv = .ok m → s.seq ≠ []) := by
  refine ⟨?_, ?_, ?_, ?_⟩
  · intro samplers sizes hex
    rw [ConcatSampler.mk?.eq_def, peekAll_of_empty_mem samplers hex]
  · intro samplers sizes c hok
    cases hp : peekAll samplers with
    | none => rw [ConcatSampler.mk?.eq_def, hp] at hok; cases hok
    | some si => exact peekAll_ok_nonempty samplers si hp
  · intro s mv dv hm hd hseq
    have hh : s.seq.head? = none := by rw [hseq]; rfl
    rw [MultiBatchSampler.mk?, if_neg (by simp [hm]),
      if_neg (by simp [hd]), hh]
  · intro s mv dv m hok hseq
    have hh : s.seq.head? = none := by rw [hseq]; rfl
    rw [MultiBatchSampler.mk?] at hok
    split at hok
    · cases hok
    · split at hok
      · cases hok
      · rw [hh] at hok
        cases hok

/-- Witness for C10 at concrete inputs: an empty wrapped sampler makes both
constructors fail with `StopIteration`. -/
theorem empty_sampler_init_fails_witness :
    ConcatSampler.mk? [{ seq := [] }] (some [3]) = .error .stopIteration ∧
    MultiBatchSampler.mk? { seq := [] } (.int 2) (.bool false) =
      .error .stopIteration :=
  ⟨empty_sampler_init_fails.1 [{ seq := [] }] (some [3])
      ⟨{ seq := [] }, by simp, rfl⟩,
   empty_sampler_init_fails.2.2.1 { seq := [] } (.int 2) (.bool false)
      (by decide) (by decide) rfl⟩
